import Mathlib

/-!
Shallow embedding of the arudart frame-differencing detection pipeline
(src/src/processing/motion_detection.py, background_model.py,
dart_detection.py).

Modelling conventions:
* Images are total functions on integer pixel coordinates with natural-number
  (8-bit, 0..255) intensities; a frame of a given camera occupies the rectangle
  [0, W) x [0, H).  The total-function model avoids border bookkeeping that no
  verified property depends on.
* Python floats are modelled by exact rationals; float literals are read as the
  decimal values written in the source (noted where it could matter).  np.pi is
  the exact value of the float64 constant numpy exposes.
* OpenCV library primitives whose pixel-exact output no claim depends on
  (resize, GaussianBlur, Canny, fitLine, arcLength, convexHull, findContours,
  drawContours fill, the elliptical structuring elements) are fields of a
  `CvPrims` record: every theorem quantifies over them, and witnesses
  instantiate them with concrete functions.  Primitives with simple exact
  semantics (absdiff, threshold, bitwise and/or/not, erode/dilate given a
  structuring element, boundingRect, contourArea, BGR-to-gray) are defined
  concretely.
-/

namespace Arudart

/-- Pixel intensities are 8-bit values, modelled as naturals. -/
abbrev Pix := Nat

/-- A single-channel image: intensity at integer coordinates (x, y). -/
abbrev Img := Int → Int → Pix

/-- A BGR color pixel (blue, green, red). -/
abbrev Color := Pix × Pix × Pix

/-- A color frame: BGR pixel at integer coordinates (x, y). -/
abbrev Frame := Int → Int → Color

/-- Camera identifiers. -/
abbrev CamId := Nat

/-- A planar contour as produced by cv2.findContours: a list of pixel points. -/
abbrev Contour := List (Int × Int)

/-- The all-black image. -/
def zeroImg : Img := fun _ _ => 0

/-- The exact rational value of the float64 constant np.pi. -/
def npPi : ℚ := 884279719003555 / 281474976710656

/-- Python int() on a rational: truncation toward zero. -/
def pytrunc (q : ℚ) : Int := if 0 ≤ q then ⌊q⌋ else ⌈q⌉

/-- cv2.cvtColor(., COLOR_BGR2GRAY): the OpenCV fixed-point formula
round(0.114 B + 0.587 G + 0.299 R) computed as
(1868 B + 9617 G + 4899 R + 8192) >> 14. -/
def cvtGray (f : Frame) : Img := fun x y =>
  (1868 * (f x y).1 + 9617 * (f x y).2.1 + 4899 * (f x y).2.2 + 8192) / 16384

/-- Absolute difference of two intensities. -/
def absdiffPix (a b : Pix) : Pix := max a b - min a b

/-- cv2.absdiff, pixelwise. -/
def absdiffImg (f g : Img) : Img := fun x y => absdiffPix (f x y) (g x y)

/-- cv2.threshold(., t, 255, THRESH_BINARY): 255 where strictly above t. -/
def threshBin (t : ℚ) (f : Img) : Img := fun x y =>
  if t < (f x y : ℚ) then 255 else 0

/-- cv2.bitwise_or, pixelwise (bitwise on 8-bit values). -/
def lorImg (f g : Img) : Img := fun x y => Nat.lor (f x y) (g x y)

/-- cv2.bitwise_and(src, src, mask): src where the mask is nonzero, else 0. -/
def maskImg (f m : Img) : Img := fun x y => if m x y ≠ 0 then f x y else 0

/-- cv2.bitwise_not on an 8-bit image. -/
def notImg (f : Img) : Img := fun x y => 255 - f x y

/-- Grayscale erosion by a structuring element given as a list of offsets:
pointwise minimum over the translated window (255 on an empty element). -/
def erodeK (k : List (Int × Int)) (f : Img) : Img := fun x y =>
  (k.map (fun d => f (x + d.1) (y + d.2))).foldr min 255

/-- Grayscale dilation by a structuring element: pointwise maximum over the
translated window. -/
def dilateK (k : List (Int × Int)) (f : Img) : Img := fun x y =>
  (k.map (fun d => f (x + d.1) (y + d.2))).foldr max 0

/-- cv2.morphologyEx(., MORPH_OPEN, k): erosion followed by dilation. -/
def openK (k : List (Int × Int)) (f : Img) : Img := dilateK k (erodeK k f)

/-- cv2.morphologyEx(., MORPH_CLOSE, k): dilation followed by erosion. -/
def closeK (k : List (Int × Int)) (f : Img) : Img := erodeK k (dilateK k f)

/-- Number of strictly positive pixels in the rectangle [0, w) x [0, h). -/
def countPos (w h : Nat) (f : Img) : Nat :=
  ((List.range h).map
    (fun y => (List.range w).countP (fun x => decide (0 < f (x : Int) (y : Int))))).sum

/-! ## Selection loop shared by BackgroundModel.get_best_post_impact

The Python loop starts with `best_frame = None, min_noise = inf` and keeps the
strictly smaller score, so it returns the earliest element attaining the
minimum.  `bestLoop f l b` is the state of that loop after seeding it with a
first element `b`. -/

def bestLoop {α : Type} (f : α → Nat) : List α → α → α
  | [], b => b
  | c :: rest, b => bestLoop f rest (if f c < f b then c else b)

/-! ## BackgroundModel (src/src/processing/background_model.py) -/

/-- State of BackgroundModel: `pre_impact_frames` and `post_impact_candidates`
are Python dicts keyed by camera, modelled as functions into Option
(`none` = key absent). -/
structure BMState where
  pre_impact_frames : CamId → Option Frame
  post_impact_candidates : CamId → Option (List Frame)

/-- Pointwise update of a dict modelled as a function. -/
def updateF {β : Type} (f : CamId → β) (k : CamId) (v : β) : CamId → β :=
  fun k2 => if k2 = k then v else f k2

/-- BackgroundModel.update_pre_impact: if the frame is non-null, store a copy
as the pre-impact frame and reset the post candidates of that camera to []. -/
def update_pre_impact (st : BMState) (cam : CamId) (fr : Option Frame) : BMState :=
  match fr with
  | none => st
  | some f =>
    { pre_impact_frames := updateF st.pre_impact_frames cam (some f)
      post_impact_candidates := updateF st.post_impact_candidates cam (some []) }

/-- BackgroundModel.add_post_impact_candidate: append a copy of a non-null
frame to the candidate list of that camera (created if absent). -/
def add_post_impact_candidate (st : BMState) (cam : CamId) (fr : Option Frame) : BMState :=
  match fr with
  | none => st
  | some f =>
    let old := (st.post_impact_candidates cam).getD []
    { st with post_impact_candidates := updateF st.post_impact_candidates cam (some (old ++ [f])) }

/-- The background-noise region used by get_best_post_impact: the mask is all
ones with a filled circle of value 0 of radius min(w,h)//3 at (w//2, h//2);
a pixel counts when outside that disk.  cv2.circle rasterization is idealized
as the exact disk. -/
def outsideDisk (W H : Nat) (x y : Int) : Bool :=
  decide ((((min W H / 3 : Nat) : Int)) * ((min W H / 3 : Nat) : Int) <
    (x - (W : Int) / 2) * (x - (W : Int) / 2) +
    (y - (H : Int) / 2) * (y - (H : Int) / 2))

/-- Noise score of a post candidate: grayscale absolute difference against the
pre frame, summed over the pixels of [0,W) x [0,H) outside the central disk. -/
def noiseScore (W H : Nat) (p c : Frame) : Nat :=
  ((List.range H).map (fun y =>
    ((List.range W).map (fun x =>
      if outsideDisk W H (x : Int) (y : Int)
      then absdiffPix (cvtGray p x y) (cvtGray c x y) else 0)).sum)).sum

/-- BackgroundModel.get_best_post_impact: null with no candidates, the single
candidate with one, the first candidate when no pre frame is stored, otherwise
the candidate with strictly smallest noise score (first one wins ties). -/
def get_best_post_impact (W H : Nat) (st : BMState) (cam : CamId) : Option Frame :=
  match st.post_impact_candidates cam with
  | none => none
  | some [] => none
  | some (c0 :: rest) =>
    if rest.isEmpty then some c0
    else
      match st.pre_impact_frames cam with
      | none => some c0
      | some p => some (bestLoop (noiseScore W H p) rest c0)

/-- BackgroundModel.get_pre_impact. -/
def get_pre_impact (st : BMState) (cam : CamId) : Option Frame :=
  st.pre_impact_frames cam

/-- BackgroundModel.has_pre_impact. -/
def has_pre_impact (st : BMState) (cam : CamId) : Bool :=
  (st.pre_impact_frames cam).isSome

/-! ## Abstracted OpenCV primitives -/

/-- Result of cv2.fitLine(., DIST_L2, 0, 0.01, 0.01): a unit direction
(vx, vy) and a point (x0, y0) of the least-squares fitted line. -/
structure LineFit where
  vx : ℚ
  vy : ℚ
  x0 : ℚ
  y0 : ℚ

/-- OpenCV primitives whose pixel-exact output no verified claim depends on,
abstracted as parameters: cv2.resize (by a downscale factor), cv2.GaussianBlur
(by kernel size), cv2.Canny (with its two thresholds), cv2.arcLength (closed),
cv2.convexHull, cv2.fitLine, cv2.findContours (RETR_EXTERNAL,
CHAIN_APPROX_SIMPLE), cv2.drawContours with thickness -1 (filled contour), and
the elliptical structuring elements returned by cv2.getStructuringElement
(MORPH_ELLIPSE) at sizes 3, 15, 21, 27, 35 and 25, as offset lists. -/
structure CvPrims where
  resize : Nat → Frame → Frame
  gaussBlur : Nat → Img → Img
  canny : Img → Nat → Nat → Img
  arcLength : Contour → ℚ
  convexHull : Contour → Contour
  fitLine : Contour → LineFit
  findContours : Img → List Contour
  fillContour : Contour → Img
  k3 : List (Int × Int)
  k15 : List (Int × Int)
  k21 : List (Int × Int)
  k27 : List (Int × Int)
  k35 : List (Int × Int)
  k25 : List (Int × Int)

/-! ## MotionDetector (src/src/processing/motion_detection.py) -/

/-- Constructor parameters of MotionDetector. -/
structure MParams where
  downscale_factor : Nat
  motion_threshold : ℚ
  blur_kernel : Nat
  settled_threshold : ℚ

/-- State of MotionDetector: `background_frames` and
`persistent_change_start` dicts.  A camera key that is absent and a key mapped
to Python None are both `none` (detect_persistent_change reads the dict with
.get, which conflates the two). -/
structure MDState where
  background_frames : CamId → Option Img
  persistent_change_start : CamId → Option ℚ

/-- numpy .astype(np.uint8) on a float: truncate toward zero, wrap mod 256. -/
def toU8 (q : ℚ) : Nat := (pytrunc q).toNat % 256

/-- The shared preprocessing of MotionDetector: downscale, grayscale,
Gaussian blur. -/
def procM (cv : CvPrims) (mp : MParams) (f : Frame) : Img :=
  cv.gaussBlur mp.blur_kernel (cvtGray (cv.resize mp.downscale_factor f))

/-- The adaptive-update blend (1 - rate) * old + rate * new, cast to uint8. -/
def blendImg (lr : ℚ) (oldI newI : Img) : Img :=
  fun x y => toU8 ((1 - lr) * (oldI x y : ℚ) + lr * (newI x y : ℚ))

/-- MotionDetector.update_background: no-op on a null frame; otherwise store
the processed frame outright when the camera has no background yet or the
learning rate is 1.0, else blend; always reset the change-start of that camera
timestamp to null. -/
def update_background (cv : CvPrims) (mp : MParams) (st : MDState) (cam : CamId)
    (fr : Option Frame) (lr : ℚ) : MDState :=
  match fr with
  | none => st
  | some f =>
    let blurred := procM cv mp f
    let nb :=
      match st.background_frames cam with
      | none => blurred
      | some old => if lr = 1 then blurred else blendImg lr old blurred
    { background_frames := updateF st.background_frames cam (some nb)
      persistent_change_start := updateF st.persistent_change_start cam none }

/-- MotionDetector.detect_motion: (motion_detected, motion_amount, thresh).
Returns (false, 0, none) when the frame is null or the camera has no
background.  The backgrounds dict is passed explicitly since detect_motion
never mutates it. -/
def detect_motion (cv : CvPrims) (mp : MParams) (W H : Nat) (bg : CamId → Option Img)
    (cam : CamId) (fr : Option Frame) : Bool × ℚ × Option Img :=
  match fr, bg cam with
  | some f, some b =>
    let blurred := procM cv mp f
    let diff := absdiffImg b blurred
    let w := W / mp.downscale_factor
    let h := H / mp.downscale_factor
    let th := threshBin mp.motion_threshold diff
    let amount := (countPos w h th : ℚ) / ((w : ℚ) * (h : ℚ)) * 100
    (decide (mp.settled_threshold < amount), amount, some th)
  | _, _ => (false, 0, none)

/-- One camera step of the loop in MotionDetector.detect_persistent_change:
on instantaneous change, start the timer if unset, else flag persistence once
now - start reaches the persistence window; on no change, reset the timer. -/
def stepCam (cv : CvPrims) (mp : MParams) (W H : Nat) (bg : CamId → Option Img)
    (now p : ℚ) (acc : (CamId → Option ℚ) × Bool) (cf : CamId × Option Frame) :
    (CamId → Option ℚ) × Bool :=
  if (detect_motion cv mp W H bg cf.1 cf.2).1 then
    match acc.1 cf.1 with
    | none => (updateF acc.1 cf.1 (some now), acc.2)
    | some t0 => (acc.1, acc.2 || decide (p ≤ now - t0))
  else (updateF acc.1 cf.1 none, acc.2)

/-- MotionDetector.detect_persistent_change: returns (persistent_detected,
per_camera_motion, max_motion, updated state).  The per-camera results and the
running max are recomputed outside the fold; this is sound because the fold
never touches the backgrounds the per-camera results depend on. -/
def detect_persistent_change (cv : CvPrims) (mp : MParams) (W H : Nat) (st : MDState)
    (frames : List (CamId × Option Frame)) (now p : ℚ) :
    Bool × List (CamId × (Bool × ℚ)) × ℚ × MDState :=
  let r := frames.foldl (stepCam cv mp W H st.background_frames now p)
    (st.persistent_change_start, false)
  let per := frames.map (fun cf => (cf.1,
      ((detect_motion cv mp W H st.background_frames cf.1 cf.2).1,
       (detect_motion cv mp W H st.background_frames cf.1 cf.2).2.1)))
  let mx := (frames.map
      (fun cf => (detect_motion cv mp W H st.background_frames cf.1 cf.2).2.1)).foldl max 0
  (r.2, per, mx, { st with persistent_change_start := r.1 })

/-- One call to detect_persistent_change: the frames dict of that call and its
current_time. -/
structure Call where
  time : ℚ
  frames : List (CamId × Option Frame)

/-- Run a sequence of detect_persistent_change calls, threading the state. -/
def runCalls (cv : CvPrims) (mp : MParams) (W H : Nat) (p : ℚ) (st : MDState) :
    List Call → MDState
  | [] => st
  | c :: rest =>
    runCalls cv mp W H p (detect_persistent_change cv mp W H st c.frames c.time p).2.2.2 rest

/-- The instantaneous-change sample a call carries for a camera: none when the
camera is not among the frames of the call, otherwise the detect_motion boolean. -/
def sampleOf (cv : CvPrims) (mp : MParams) (W H : Nat) (bg : CamId → Option Img)
    (call : Call) (cam : CamId) : Option Bool :=
  (call.frames.lookup cam).map (fun fr => (detect_motion cv mp W H bg cam fr).1)

/-- A contiguous run of true samples for a camera within a call sequence:
some call at index i has time t and reports instantaneous change for the
camera, and every call from i on that samples the camera reports true (no
intervening false sample). -/
def GoodRun (cv : CvPrims) (mp : MParams) (W H : Nat) (bg : CamId → Option Img)
    (prior : List Call) (cam : CamId) (t : ℚ) : Prop :=
  ∃ i, ∃ hi : i < prior.length,
    (prior.get ⟨i, hi⟩).time = t ∧
    sampleOf cv mp W H bg (prior.get ⟨i, hi⟩) cam = some true ∧
    ∀ j, ∀ hj : j < prior.length, i ≤ j →
      ∀ b, sampleOf cv mp W H bg (prior.get ⟨j, hj⟩) cam = some b → b = true

/-! ## DartDetector (src/src/processing/dart_detection.py) -/

/-- Constructor parameters of DartDetector. -/
structure DParams where
  diff_threshold : ℚ
  blur_kernel : Nat
  min_dart_area : ℚ
  max_dart_area : ℚ
  min_shaft_length : ℚ
  aspect_ratio_min : ℚ

/-- Mutable state of a DartDetector instance: the lazily created board mask
and the accumulated previous-darts mask. -/
structure DDState where
  board_mask : Option Img
  previous_darts_mask : Option Img

/-- DartDetector.reset_previous_darts. -/
def reset_previous_darts (st : DDState) : DDState :=
  { st with previous_darts_mask := none }

/-- cv2.boundingRect: upright bounding box of a contour, with
width = xmax - xmin + 1 and height = ymax - ymin + 1. -/
structure Rect where
  x : Int
  y : Int
  w : Nat
  h : Nat

def boundingRect (c : Contour) : Rect :=
  match c with
  | [] => ⟨0, 0, 0, 0⟩
  | q :: qs =>
    let xs := (q :: qs).map Prod.fst
    let ys := (q :: qs).map Prod.snd
    ⟨xs.foldr min q.1, ys.foldr min q.2,
     (xs.foldr max q.1 - xs.foldr min q.1).toNat + 1,
     (ys.foldr max q.2 - ys.foldr min q.2).toNat + 1⟩

/-- Cross-product sum of the closed polygon through the contour points
(the shoelace formula cv2.contourArea evaluates). -/
def shoelaceAux (first : Int × Int) : List (Int × Int) → Int
  | [] => 0
  | [q] => q.1 * first.2 - first.1 * q.2
  | q :: r :: rest => (q.1 * r.2 - r.1 * q.2) + shoelaceAux first (r :: rest)

def shoelace : Contour → Int
  | [] => 0
  | q :: qs => shoelaceAux q (q :: qs)

/-- cv2.contourArea: half the absolute shoelace sum. -/
def contourArea (c : Contour) : ℚ := |(shoelace c : ℚ)| / 2

/-- One entry of the dart_candidates list built by DartDetector.detect. -/
structure Candidate where
  contour : Contour
  area : ℚ
  bbox : Rect
  aspect_ratio : ℚ
  circularity : ℚ
  solidity : ℚ

/-- The contour filter of DartDetector.detect (the chain of continue tests):
area within [min_dart_area, max_dart_area], bounding-box aspect ratio
max(h,w)/max(min(h,w),1) at least aspect_ratio_min, longer side at least
min_shaft_length, nonzero perimeter, circularity 4 pi area / perimeter^2 at
most 0.7, nonzero hull area, solidity area / hull_area at least 0.5. -/
def mkCandidate (cv : CvPrims) (p : DParams) (contour : Contour) : Option Candidate :=
  let area := contourArea contour
  if area < p.min_dart_area ∨ p.max_dart_area < area then none
  else
    let r := boundingRect contour
    let aspect := ((max r.h r.w : Nat) : ℚ) / ((max (min r.h r.w) 1 : Nat) : ℚ)
    if aspect < p.aspect_ratio_min then none
    else if ((max r.h r.w : Nat) : ℚ) < p.min_shaft_length then none
    else
      let per := cv.arcLength contour
      if per = 0 then none
      else
        let circ := 4 * npPi * area / (per * per)
        if 7/10 < circ then none
        else
          let hullArea := contourArea (cv.convexHull contour)
          if hullArea = 0 then none
          else
            let sol := area / hullArea
            if sol < 1/2 then none
            else some ⟨contour, area, r, aspect, circ, sol⟩

/-- The dart_candidates list: the contours surviving the filter, in order. -/
def candidatesOf (cv : CvPrims) (p : DParams) (cs : List Contour) : List Candidate :=
  cs.filterMap (mkCandidate cv p)

/-- Candidate score: area * aspect_ratio * (1 - circularity). -/
def score (c : Candidate) : ℚ := c.area * c.aspect_ratio * (1 - c.circularity)

/-- Python max(..., key=f): scan keeping the current element unless the new
key is strictly greater, so the first maximum wins. -/
def pyMaxBy {α : Type} (f : α → ℚ) : α → List α → α
  | b, [] => b
  | b, c :: rest => pyMaxBy f (if f b < f c then c else b) rest

/-- The two endpoints DartDetector._find_tip computes: project every contour
point onto the fitted line (t = (px - x0) vx + (py - y0) vy), take the points
of the line at the extreme parameters, cast to int. -/
def tipEnds (cv : CvPrims) (c : Contour) : (Int × Int) × (Int × Int) :=
  let fl := cv.fitLine c
  match c.map (fun q => ((q.1 : ℚ) - fl.x0) * fl.vx + ((q.2 : ℚ) - fl.y0) * fl.vy) with
  | [] => ((0, 0), (0, 0))
  | t :: rest =>
    let tmin := rest.foldr min t
    let tmax := rest.foldr max t
    ((pytrunc (fl.x0 + tmin * fl.vx), pytrunc (fl.y0 + tmin * fl.vy)),
     (pytrunc (fl.x0 + tmax * fl.vx), pytrunc (fl.y0 + tmax * fl.vy)))

/-- DartDetector._find_tip: the endpoint with the larger y wins (end2 on a
tie, matching the else branch), fixed confidence 0.8. -/
def findTip (cv : CvPrims) (c : Contour) : (Int × Int) × ℚ :=
  let e := tipEnds cv c
  (if e.2.2 < e.1.2 then e.1 else e.2, 4/5)

/-- The board mask on first creation: a filled disk of radius
int(min(w, h) * 0.425) around the image center (idealized rasterization of
cv2.circle). -/
def diskMask (W H : Nat) : Img := fun x y =>
  let r := ((min W H * 425 / 1000 : Nat) : Int)
  if (x - (W : Int) / 2) * (x - (W : Int) / 2) +
     (y - (H : Int) / 2) * (y - (H : Int) / 2) ≤ r * r then 255 else 0

/-- The board mask detect uses: the stored one, or the disk on first use. -/
def bmOf (W H : Nat) (st : DDState) : Img := st.board_mask.getD (diskMask W H)

/-- The blurred absolute difference of the two grayscale frames. -/
def diffOf (cv : CvPrims) (p : DParams) (preF postF : Frame) : Img :=
  let d := absdiffImg (cvtGray preF) (cvtGray postF)
  if 0 < p.blur_kernel then cv.gaussBlur p.blur_kernel d else d

/-- The threshold image detect extracts contours from: threshold the blurred
difference, OR in the Canny edges of the post frame, open with the 3x3
element, close with the 15, 21, 27 and 35 elements, apply the board mask, and
(when mask_previous is set and a previous-darts mask exists) zero out
previously detected dart regions. -/
def threshFinal (cv : CvPrims) (p : DParams) (W H : Nat) (st : DDState)
    (preF postF : Frame) (mask_previous : Bool) : Img :=
  let edges := cv.canny (cvtGray postF) 50 150
  let t1 := lorImg (threshBin p.diff_threshold (diffOf cv p preF postF)) edges
  let t2 := closeK cv.k35 (closeK cv.k27 (closeK cv.k21 (closeK cv.k15 (openK cv.k3 t1))))
  let t3 := maskImg t2 (bmOf W H st)
  if mask_previous then
    match st.previous_darts_mask with
    | some pm => maskImg t3 (notImg pm)
    | none => t3
  else t3

/-- The filled and dilated silhouette _add_to_previous_darts_mask builds for
one detected dart. -/
def dartMaskOf (cv : CvPrims) (c : Contour) : Img :=
  dilateK cv.k25 (cv.fillContour c)

/-- DartDetector._add_to_previous_darts_mask: union the dart silhouette into
the cumulative mask, initializing it if absent. -/
def addPrevMask (cv : CvPrims) (st : DDState) (c : Contour) : DDState :=
  let nm :=
    match st.previous_darts_mask with
    | none => dartMaskOf cv c
    | some m => lorImg m (dartMaskOf cv c)
  { st with previous_darts_mask := some nm }

/-- The debug_info dict of detect (the keys a claim can observe). -/
structure DebugInfo where
  diff : Img
  thresh : Img
  contour : Option Contour
  bbox : Option Rect

/-- The (tip_x, tip_y, confidence, debug_info) tuple of detect; a missing tip
models (None, None). -/
structure DetectResult where
  tip : Option (Int × Int)
  conf : ℚ
  debug : Option DebugInfo

/-- DartDetector._multi_blob_analysis, abstracted: its internals (moments,
arctan2 angles, Euclidean farthest-point search) use irrational float
operations and no claim depends on them; only its interface - it may yield a
replacement tip and confidence or nothing - is relevant. -/
abbrev MultiBlobFn := List Candidate → Img → Option ((Int × Int) × ℚ)

/-- DartDetector.detect.  Null inputs short-circuit to not-found with the
state untouched.  The two not-found exits of the source (no contours at all /
no surviving candidate) return identical observable results and are merged;
both store the freshly created board mask, as the source does.  The winning
candidate is the first score maximum; the multi-blob fallback replaces the
primary tip only when more than one candidate survived, the primary result is
weak (confidence below 0.5 or length under 60 px), and the fallback reports a
strictly higher confidence. -/
def detect (cv : CvPrims) (mb : MultiBlobFn) (p : DParams) (W H : Nat) (st : DDState)
    (pre post : Option Frame) (mask_previous : Bool) : DetectResult × DDState :=
  match pre, post with
  | some preF, some postF =>
    let diff := diffOf cv p preF postF
    let tf := threshFinal cv p W H st preF postF mask_previous
    let st1 : DDState := { st with board_mask := some (bmOf W H st) }
    match candidatesOf cv p (cv.findContours tf) with
    | [] => ({ tip := none, conf := 0, debug := some ⟨diff, tf, none, none⟩ }, st1)
    | c0 :: rest =>
      let dart := pyMaxBy score c0 rest
      let prim := findTip cv dart.contour
      let dlen := max dart.bbox.w dart.bbox.h
      let res :=
        if 1 < (c0 :: rest).length ∧ (prim.2 < 1/2 ∨ dlen < 60) then
          match mb (c0 :: rest) tf with
          | some mtc => if prim.2 < mtc.2 then mtc else prim
          | none => prim
        else prim
      let st2 := if mask_previous then addPrevMask cv st1 dart.contour else st1
      ({ tip := some res.1, conf := res.2,
         debug := some ⟨diff, tf, some dart.contour, some dart.bbox⟩ }, st2)
  | _, _ => ({ tip := none, conf := 0, debug := none }, st)

/-! ## Concrete instantiations used by witnesses -/

/-- A concrete, trivial instantiation of the abstract primitives: identity
resize and blur, black Canny output, contourless findContours, constant
measurements, single-point structuring elements. -/
def cvId : CvPrims where
  resize := fun _ f => f
  gaussBlur := fun _ i => i
  canny := fun _ _ _ => zeroImg
  arcLength := fun _ => 108
  convexHull := fun c => c
  fitLine := fun _ => ⟨0, 1, 0, 0⟩
  findContours := fun _ => []
  fillContour := fun _ => zeroImg
  k3 := [(0, 0)]
  k15 := [(0, 0)]
  k21 := [(0, 0)]
  k27 := [(0, 0)]
  k35 := [(0, 0)]
  k25 := [(0, 0)]

/-- An elongated 5 x 50 rectangle contour (area 196, aspect ratio 10). -/
def cexContour : Contour := [(0, 0), (4, 0), (4, 49), (0, 49)]

/-- Primitives under which the edge map of the post frame yields one surviving
elongated contour: Canny reports edges everywhere and findContours extracts
the rectangle. -/
def cvCex : CvPrims :=
  { cvId with canny := fun _ _ _ => fun _ _ => 255
              findContours := fun _ => [cexContour] }

/-- A uniform black frame. -/
def constFrame : Frame := fun _ _ => (0, 0, 0)

/-- The multi-blob fallback instantiation that never yields a result. -/
def mbNone : MultiBlobFn := fun _ _ => none

/-- The MotionDetector constructor defaults (4, 25, 21, 10). -/
def mpW : MParams := ⟨4, 25, 21, 10⟩

/-- Motion parameters with a negative settled threshold, so any measured
change (even zero) counts as instantaneous motion. -/
def mpNeg : MParams := ⟨4, 25, 21, -1⟩

/-- A MotionDetector state with a stored background for every camera and no
running change timers. -/
def mdW : MDState := ⟨fun _ => some zeroImg, fun _ => none⟩

/-- A call at time 0 sampling camera 0. -/
def callA : Call := ⟨0, [(0, some constFrame)]⟩

/-- A call at time 1 sampling camera 0. -/
def callB : Call := ⟨1, [(0, some constFrame)]⟩

/-- The DartDetector constructor defaults (30, 5, 100, 5000, 30, 2.0). -/
def dpW : DParams := ⟨30, 5, 100, 5000, 30, 2⟩

/-- A fresh DartDetector state (no board mask, no previous darts). -/
def ddFresh : DDState := ⟨none, none⟩

/-- The candidate record the filter builds from cexContour under cvCex. -/
def cexCand : Candidate :=
  ⟨cexContour, contourArea cexContour, boundingRect cexContour,
   ((max (boundingRect cexContour).h (boundingRect cexContour).w : Nat) : ℚ) /
     ((max (min (boundingRect cexContour).h (boundingRect cexContour).w) 1 : Nat) : ℚ),
   4 * npPi * contourArea cexContour /
     (cvCex.arcLength cexContour * cvCex.arcLength cexContour),
   contourArea cexContour / contourArea (cvCex.convexHull cexContour)⟩

/-- A uniform gray-level-10 frame. -/
def frameA : Frame := fun _ _ => (10, 10, 10)

/-- A BackgroundModel state with a stored pre frame and two post candidates
for camera 0. -/
def bmW : BMState := ⟨fun _ => some constFrame, fun _ => some [frameA, constFrame]⟩

/-! ## Helper lemmas -/

theorem countPos_zero (w h : Nat) : countPos w h zeroImg = 0 := by
  unfold countPos zeroImg
  simp [List.countP_eq_zero]

theorem boundingRect_dims_pos (c : Contour) (hc : c ≠ []) :
    1 ≤ (boundingRect c).w ∧ 1 ≤ (boundingRect c).h := by
  cases c with
  | nil => exact absurd rfl hc
  | cons q qs => simp [boundingRect]

theorem absdiffImg_self (b : Img) : absdiffImg b b = zeroImg := by
  funext x y
  simp [absdiffImg, absdiffPix, zeroImg]

theorem threshBin_zeroImg {t : ℚ} (h : 0 ≤ t) : threshBin t zeroImg = zeroImg := by
  funext x y
  simp [threshBin, zeroImg, not_lt.mpr h]

theorem pyMaxBy_spec {α : Type} (f : α → ℚ) (l : List α) (b : α) :
    (pyMaxBy f b l = b ∨ pyMaxBy f b l ∈ l) ∧
    f b ≤ f (pyMaxBy f b l) ∧ ∀ a ∈ l, f a ≤ f (pyMaxBy f b l) := by
  induction l generalizing b with
  | nil => exact ⟨Or.inl rfl, le_refl _, by simp⟩
  | cons c rest ih =>
    simp only [pyMaxBy]
    by_cases hbc : f b < f c
    · rw [if_pos hbc]
      rcases ih c with ⟨hmem, hble, hrestle⟩
      refine ⟨?_, le_trans (le_of_lt hbc) hble, ?_⟩
      · rcases hmem with h | h
        · exact Or.inr (by simp [h])
        · exact Or.inr (List.mem_cons_of_mem c h)
      · intro a ha
        rcases List.mem_cons.mp ha with h | h
        · subst h; exact hble
        · exact hrestle a h
    · rw [if_neg hbc]
      rcases ih b with ⟨hmem, hble, hrestle⟩
      refine ⟨?_, hble, ?_⟩
      · rcases hmem with h | h
        · exact Or.inl h
        · exact Or.inr (List.mem_cons_of_mem c h)
      · intro a ha
        rcases List.mem_cons.mp ha with h | h
        · subst h
          exact le_trans (not_lt.mp hbc) hble
        · exact hrestle a h

theorem mkCandidate_cvCex : mkCandidate cvCex dpW cexContour = some cexCand := by
  rw [mkCandidate]
  rw [if_neg (by norm_num [dpW, contourArea, cexContour, shoelace, shoelaceAux])]
  rw [if_neg (by norm_num [dpW, cexContour, boundingRect,
    show (49 : Int).toNat = 49 from rfl, show (4 : Int).toNat = 4 from rfl])]
  rw [if_neg (by norm_num [dpW, cexContour, boundingRect,
    show (49 : Int).toNat = 49 from rfl, show (4 : Int).toNat = 4 from rfl])]
  rw [if_neg (by norm_num [cvCex, cvId])]
  rw [if_neg (by norm_num [cvCex, cvId, npPi, contourArea, cexContour, shoelace, shoelaceAux])]
  rw [if_neg (by norm_num [cvCex, cvId, contourArea, cexContour, shoelace, shoelaceAux])]
  rw [if_neg (by norm_num [cvCex, cvId, contourArea, cexContour, shoelace, shoelaceAux])]
  rfl

theorem candidatesOf_cvCex (img : Img) :
    candidatesOf cvCex dpW (cvCex.findContours img) = [cexCand] := by
  show candidatesOf cvCex dpW [cexContour] = [cexCand]
  simp [candidatesOf, mkCandidate_cvCex]

theorem findTip_cvCex : findTip cvCex cexContour = ((0, 49), 4/5) := by
  have hends : tipEnds cvCex cexContour = ((0, 0), (0, 49)) := by
    rw [tipEnds]
    norm_num [cvCex, cvId, cexContour, List.foldr, pytrunc]
  rw [findTip, hends]
  norm_num

theorem bestLoop_spec {α : Type} (f : α → Nat) (l : List α) (b : α) :
    (bestLoop f l b = b ∧ ∀ a ∈ l, f b ≤ f a) ∨
    (∃ i, ∃ h : i < l.length, bestLoop f l b = l.get ⟨i, h⟩ ∧
      f (bestLoop f l b) < f b ∧ (∀ a ∈ l, f (bestLoop f l b) ≤ f a) ∧
      ∀ j, ∀ hj : j < i, f (bestLoop f l b) < f (l.get ⟨j, by omega⟩)) := by
  induction l generalizing b with
  | nil => exact Or.inl ⟨rfl, by simp⟩
  | cons c rest ih =>
    by_cases hcb : f c < f b
    · simp only [bestLoop, if_pos hcb]
      rcases ih c with ⟨heq, hle⟩ | ⟨i, hi, heq, hlt, hle, hearlier⟩
      · refine Or.inr ⟨0, by simp, ?_, ?_, ?_, ?_⟩
        · simpa using heq
        · rw [heq]; exact hcb
        · intro a ha
          rw [heq]
          rcases List.mem_cons.mp ha with h | h
          · exact le_of_eq (congrArg f h.symm)
          · exact hle a h
        · intro j hj; omega
      · refine Or.inr ⟨i + 1, by simpa using Nat.succ_lt_succ hi, by simpa using heq, ?_, ?_, ?_⟩
        · exact lt_trans hlt hcb
        · intro a ha
          rcases List.mem_cons.mp ha with h | h
          · subst h; exact le_of_lt hlt
          · exact hle a h
        · intro j hj
          cases j with
          | zero => simpa using hlt
          | succ j0 =>
            have := hearlier j0 (by omega)
            simpa using this
    · simp only [bestLoop, if_neg hcb]
      rcases ih b with ⟨heq, hle⟩ | ⟨i, hi, heq, hlt, hle, hearlier⟩
      · refine Or.inl ⟨heq, ?_⟩
        intro a ha
        rcases List.mem_cons.mp ha with h | h
        · subst h; omega
        · exact hle a h
      · refine Or.inr ⟨i + 1, by simpa using Nat.succ_lt_succ hi, by simpa using heq, hlt, ?_, ?_⟩
        · intro a ha
          rcases List.mem_cons.mp ha with h | h
          · subst h; omega
          · exact hle a h
        · intro j hj
          cases j with
          | zero => simpa using lt_of_lt_of_le hlt (by omega)
          | succ j0 =>
            have := hearlier j0 (by omega)
            simpa using this

theorem detect_success_eq (cv : CvPrims) (mb : MultiBlobFn) (p : DParams) (W H : Nat)
    (st : DDState) (preF postF : Frame) (mprev : Bool) (c0 : Candidate)
    (rest : List Candidate)
    (hcands : candidatesOf cv p
      (cv.findContours (threshFinal cv p W H st preF postF mprev)) = c0 :: rest)
    (hmb : ∀ mtc, mb (c0 :: rest) (threshFinal cv p W H st preF postF mprev) = some mtc →
      mtc.2 ≤ (findTip cv (pyMaxBy score c0 rest).contour).2) :
    (detect cv mb p W H st (some preF) (some postF) mprev).1.tip =
      some (findTip cv (pyMaxBy score c0 rest).contour).1 ∧
    (detect cv mb p W H st (some preF) (some postF) mprev).1.conf =
      (findTip cv (pyMaxBy score c0 rest).contour).2 ∧
    (detect cv mb p W H st (some preF) (some postF) mprev).2 =
      (if mprev then
        addPrevMask cv { st with board_mask := some (bmOf W H st) }
          (pyMaxBy score c0 rest).contour
       else { st with board_mask := some (bmOf W H st) }) := by
  simp only [detect]
  rw [hcands]
  dsimp only
  by_cases hcond : 1 < (c0 :: rest).length ∧
      ((findTip cv (pyMaxBy score c0 rest).contour).2 < 1/2 ∨
        max (pyMaxBy score c0 rest).bbox.w (pyMaxBy score c0 rest).bbox.h < 60)
  · rw [if_pos hcond]
    cases hmbv : mb (c0 :: rest) (threshFinal cv p W H st preF postF mprev) with
    | none => exact ⟨rfl, rfl, rfl⟩
    | some mtc =>
      dsimp only
      rw [if_neg (not_lt.mpr (hmb mtc hmbv))]
      exact ⟨rfl, rfl, rfl⟩
  · rw [if_neg hcond]
    exact ⟨rfl, rfl, rfl⟩

theorem lor_ne_zero_left (m n : Nat) (h : m ≠ 0) : Nat.lor m n ≠ 0 := by
  intro h0
  rcases Nat.ne_zero_implies_bit_true h with ⟨i, hi⟩
  have h2 : (m ||| n) = 0 := h0
  have h3 := Nat.testBit_lor m n i
  rw [h2] at h3
  simp [hi] at h3

theorem lookup_eq_none_of_not_mem {β : Type} (l : List (CamId × β)) (cam : CamId)
    (h : cam ∉ l.map Prod.fst) : l.lookup cam = none := by
  induction l with
  | nil => rfl
  | cons c rest ih =>
    obtain ⟨k, v⟩ := c
    simp only [List.map_cons, List.mem_cons, not_or] at h
    simp only [List.lookup_cons]
    rw [show (cam == k) = false from by simpa using h.1]
    exact ih h.2

theorem lookup_eq_some_of_mem {β : Type} (l : List (CamId × β)) (cam : CamId) (v : β)
    (hnd : (l.map Prod.fst).Nodup) (hm : (cam, v) ∈ l) : l.lookup cam = some v := by
  induction l with
  | nil => simp at hm
  | cons c rest ih =>
    obtain ⟨k, w⟩ := c
    simp only [List.map_cons, List.nodup_cons] at hnd
    simp only [List.lookup_cons]
    rcases List.mem_cons.mp hm with h | h
    · injection h with h1 h2
      subst h1
      subst h2
      rw [show (cam == cam) = true from by simp]
    · have hk : cam ≠ k := by
        intro he
        subst he
        exact hnd.1 (List.mem_map.mpr ⟨(cam, v), h, rfl⟩)
      rw [show (cam == k) = false from by simpa using hk]
      exact ih hnd.2 h

theorem stepCam_fst_ne (cv : CvPrims) (mp : MParams) (W H : Nat) (bg : CamId → Option Img)
    (now p : ℚ) (acc : (CamId → Option ℚ) × Bool) (c : CamId × Option Frame) (cam : CamId)
    (hne : cam ≠ c.1) :
    (stepCam cv mp W H bg now p acc c).1 cam = acc.1 cam := by
  simp only [stepCam]
  split_ifs with hmd
  · cases acc.1 c.1 <;> simp [updateF, hne]
  · simp [updateF, hne]

theorem stepCam_fst_eq (cv : CvPrims) (mp : MParams) (W H : Nat) (bg : CamId → Option Img)
    (now p : ℚ) (acc : (CamId → Option ℚ) × Bool) (c : CamId × Option Frame) :
    (stepCam cv mp W H bg now p acc c).1 c.1 =
      (if (detect_motion cv mp W H bg c.1 c.2).1 then
        match acc.1 c.1 with
        | none => some now
        | some t0 => some t0
       else none) := by
  simp only [stepCam]
  split_ifs with hmd
  · cases hcs : acc.1 c.1 <;> simp [updateF, hcs]
  · simp [updateF]

theorem stepCam_snd (cv : CvPrims) (mp : MParams) (W H : Nat) (bg : CamId → Option Img)
    (now p : ℚ) (acc : (CamId → Option ℚ) × Bool) (c : CamId × Option Frame) :
    (stepCam cv mp W H bg now p acc c).2 =
      (acc.2 || ((detect_motion cv mp W H bg c.1 c.2).1 &&
        match acc.1 c.1 with
        | none => false
        | some t0 => decide (p ≤ now - t0))) := by
  simp only [stepCam]
  split_ifs with hmd
  · cases hcs : acc.1 c.1 <;> simp [hcs, hmd]
  · rw [Bool.not_eq_true] at hmd
    simp [hmd]

theorem foldStep_start (cv : CvPrims) (mp : MParams) (W H : Nat) (bg : CamId → Option Img)
    (now p : ℚ) (frames : List (CamId × Option Frame)) (cs : CamId → Option ℚ) (pd : Bool)
    (cam : CamId) (hnd : (frames.map Prod.fst).Nodup) :
    (frames.foldl (stepCam cv mp W H bg now p) (cs, pd)).1 cam =
      (match frames.lookup cam with
      | none => cs cam
      | some fr =>
        if (detect_motion cv mp W H bg cam fr).1 then
          match cs cam with
          | none => some now
          | some t0 => some t0
        else none) := by
  induction frames generalizing cs pd with
  | nil => rfl
  | cons c rest ih =>
    obtain ⟨k, fr⟩ := c
    simp only [List.map_cons, List.nodup_cons] at hnd
    simp only [List.foldl_cons, List.lookup_cons]
    have hstep := ih ((stepCam cv mp W H bg now p (cs, pd) (k, fr)).1)
      ((stepCam cv mp W H bg now p (cs, pd) (k, fr)).2) hnd.2
    rw [Prod.mk.eta] at hstep
    by_cases hk : cam = k
    · subst hk
      have hrest : rest.lookup cam = none := lookup_eq_none_of_not_mem rest cam hnd.1
      rw [hrest] at hstep
      rw [hstep]
      rw [show (cam == cam) = true from by simp]
      have hfe := stepCam_fst_eq cv mp W H bg now p (cs, pd) (cam, fr)
      dsimp only at hfe
      rw [hfe]
    · rw [hstep]
      rw [show (cam == k) = false from by simpa using hk]
      have hne := stepCam_fst_ne cv mp W H bg now p (cs, pd) (k, fr) cam (by simpa using hk)
      dsimp only at hne
      rw [hne]

theorem foldStep_flag_true (cv : CvPrims) (mp : MParams) (W H : Nat)
    (bg : CamId → Option Img) (now p : ℚ) (frames : List (CamId × Option Frame))
    (cs : CamId → Option ℚ) (pd : Bool) (hnd : (frames.map Prod.fst).Nodup)
    (h : (frames.foldl (stepCam cv mp W H bg now p) (cs, pd)).2 = true) :
    pd = true ∨ ∃ cf ∈ frames, (detect_motion cv mp W H bg cf.1 cf.2).1 = true ∧
      ∃ t0, cs cf.1 = some t0 ∧ p ≤ now - t0 := by
  induction frames generalizing cs pd with
  | nil => exact Or.inl h
  | cons c rest ih =>
    obtain ⟨k, fr⟩ := c
    simp only [List.map_cons, List.nodup_cons] at hnd
    simp only [List.foldl_cons] at h
    have h2 := ih ((stepCam cv mp W H bg now p (cs, pd) (k, fr)).1)
      ((stepCam cv mp W H bg now p (cs, pd) (k, fr)).2) hnd.2
      (by rw [Prod.mk.eta]; exact h)
    rcases h2 with hpd1 | ⟨cf, hcf, hmot, t0, ht0, hwin⟩
    · rw [stepCam_snd] at hpd1
      dsimp only at hpd1
      rcases Bool.or_eq_true_iff.mp hpd1 with hl | hr
      · exact Or.inl hl
      · have hmd := (Bool.and_eq_true_iff.mp hr).1
        have hmatch := (Bool.and_eq_true_iff.mp hr).2
        cases hcs : cs k with
        | none =>
          rw [hcs] at hmatch
          simp at hmatch
        | some t0 =>
          rw [hcs] at hmatch
          refine Or.inr ⟨(k, fr), List.mem_cons_self _ _, hmd, t0, hcs, by simpa using hmatch⟩
    · have hne : cf.1 ≠ k := by
        intro he
        apply hnd.1
        rw [← he]
        exact List.mem_map.mpr ⟨cf, hcf, rfl⟩
      have hfix := stepCam_fst_ne cv mp W H bg now p (cs, pd) (k, fr) cf.1 (by simpa using hne)
      dsimp only at hfix
      rw [hfix] at ht0
      exact Or.inr ⟨cf, List.mem_cons_of_mem _ hcf, hmot, t0, ht0, hwin⟩

theorem goodRun_snoc (cv : CvPrims) (mp : MParams) (W H : Nat) (bg : CamId → Option Img)
    (prior : List Call) (cam : CamId) (t : ℚ) (call : Call)
    (h : GoodRun cv mp W H bg prior cam t)
    (hcall : ∀ b, sampleOf cv mp W H bg call cam = some b → b = true) :
    GoodRun cv mp W H bg (prior ++ [call]) cam t := by
  obtain ⟨i, hi, htime, hsamp, hrun⟩ := h
  refine ⟨i, by simp; omega, ?_, ?_, ?_⟩
  · simp only [List.get_eq_getElem]
    rw [List.getElem_append_left]
    exact htime
  · simp only [List.get_eq_getElem]
    rw [List.getElem_append_left]
    exact hsamp
  · intro j hj hij b hs
    by_cases hjp : j < prior.length
    · simp only [List.get_eq_getElem] at hs
      rw [List.getElem_append_left hjp] at hs
      exact hrun j hjp hij b hs
    · have hje : j = prior.length := by
        simp only [List.length_append, List.length_singleton] at hj
        omega
      subst hje
      simp only [List.get_eq_getElem] at hs
      rw [List.getElem_concat_length] at hs
      · exact hcall b hs
      · rfl

theorem goodRun_start (cv : CvPrims) (mp : MParams) (W H : Nat) (bg : CamId → Option Img)
    (prior : List Call) (cam : CamId) (call : Call)
    (hcall : sampleOf cv mp W H bg call cam = some true) :
    GoodRun cv mp W H bg (prior ++ [call]) cam call.time := by
  refine ⟨prior.length, by simp, ?_, ?_, ?_⟩
  · simp only [List.get_eq_getElem]
    rw [List.getElem_concat_length]
    rfl
  · simp only [List.get_eq_getElem]
    rw [List.getElem_concat_length]
    · exact hcall
    · rfl
  · intro j hj hij b hs
    have hje : j = prior.length := by
      simp only [List.length_append, List.length_singleton] at hj
      omega
    subst hje
    simp only [List.get_eq_getElem] at hs
    rw [List.getElem_concat_length] at hs
    · rw [hcall] at hs
      injection hs with hs
      exact hs.symm
    · rfl

theorem inv_step (cv : CvPrims) (mp : MParams) (W H : Nat) (bg : CamId → Option Img)
    (p : ℚ) (prior : List Call) (call : Call)
    (hnd : (call.frames.map Prod.fst).Nodup)
    (cs : CamId → Option ℚ) (pd : Bool)
    (hinv : ∀ cam t, cs cam = some t → GoodRun cv mp W H bg prior cam t) :
    ∀ cam t,
      (call.frames.foldl (stepCam cv mp W H bg call.time p) (cs, pd)).1 cam = some t →
      GoodRun cv mp W H bg (prior ++ [call]) cam t := by
  intro cam t h
  rw [foldStep_start cv mp W H bg call.time p call.frames cs pd cam hnd] at h
  cases hlk : call.frames.lookup cam with
  | none =>
    rw [hlk] at h
    refine goodRun_snoc cv mp W H bg prior cam t call (hinv cam t h) ?_
    intro b hb
    rw [sampleOf, hlk] at hb
    cases hb
  | some fr =>
    rw [hlk] at h
    dsimp only at h
    by_cases hmd : (detect_motion cv mp W H bg cam fr).1 = true
    · rw [if_pos hmd] at h
      have hsamp : sampleOf cv mp W H bg call cam = some true := by
        rw [sampleOf, hlk]
        simp [hmd]
      cases hcs : cs cam with
      | none =>
        rw [hcs] at h
        injection h with h
        subst h
        exact goodRun_start cv mp W H bg prior cam call hsamp
      | some t0 =>
        rw [hcs] at h
        injection h with h
        subst h
        refine goodRun_snoc cv mp W H bg prior cam t0 call (hinv cam t0 hcs) ?_
        intro b hb
        rw [hsamp] at hb
        injection hb with hb
        exact hb.symm
    · rw [if_neg hmd] at h
      cases h

theorem runCalls_bg (cv : CvPrims) (mp : MParams) (W H : Nat) (p : ℚ) (st : MDState)
    (calls : List Call) :
    (runCalls cv mp W H p st calls).background_frames = st.background_frames := by
  induction calls generalizing st with
  | nil => rfl
  | cons c rest ih =>
    rw [runCalls]
    rw [ih]
    rfl

theorem runCalls_goodrun_aux (cv : CvPrims) (mp : MParams) (W H : Nat) (p : ℚ)
    (bg0 : CamId → Option Img) (calls : List Call) (prior : List Call) (st : MDState)
    (hnd : ∀ c ∈ calls, (c.frames.map Prod.fst).Nodup)
    (hbg : st.background_frames = bg0)
    (hinv : ∀ cam t, st.persistent_change_start cam = some t →
      GoodRun cv mp W H bg0 prior cam t) :
    ∀ cam t, (runCalls cv mp W H p st calls).persistent_change_start cam = some t →
      GoodRun cv mp W H bg0 (prior ++ calls) cam t := by
  induction calls generalizing prior st with
  | nil =>
    intro cam t h
    rw [List.append_nil]
    exact hinv cam t h
  | cons c rest ih =>
    intro cam t h
    have hinv1 : ∀ cam2 t2,
        (detect_persistent_change cv mp W H st c.frames c.time
          p).2.2.2.persistent_change_start cam2 = some t2 →
        GoodRun cv mp W H bg0 (prior ++ [c]) cam2 t2 := by
      intro cam2 t2 h2
      have h3 : (c.frames.foldl (stepCam cv mp W H bg0 c.time p)
          (st.persistent_change_start, false)).1 cam2 = some t2 := by
        rw [← hbg]
        exact h2
      exact inv_step cv mp W H bg0 p prior c (hnd c (List.mem_cons_self _ _))
        st.persistent_change_start false hinv cam2 t2 h3
    have hres := ih (prior ++ [c])
      (detect_persistent_change cv mp W H st c.frames c.time p).2.2.2
      (fun x hx => hnd x (List.mem_cons_of_mem _ hx)) (by rw [← hbg]; rfl) hinv1 cam t h
    rw [List.append_assoc] at hres
    exact hres

theorem detect_state_success (cv : CvPrims) (mb : MultiBlobFn) (p : DParams) (W H : Nat)
    (st : DDState) (preF postF : Frame) (mprev : Bool) (c0 : Candidate)
    (rest : List Candidate)
    (hcands : candidatesOf cv p
      (cv.findContours (threshFinal cv p W H st preF postF mprev)) = c0 :: rest) :
    (detect cv mb p W H st (some preF) (some postF) mprev).2 =
      (if mprev then
        addPrevMask cv { st with board_mask := some (bmOf W H st) }
          (pyMaxBy score c0 rest).contour
       else { st with board_mask := some (bmOf W H st) }) := by
  simp only [detect]
  rw [hcands]

theorem detect_state_nocand (cv : CvPrims) (mb : MultiBlobFn) (p : DParams) (W H : Nat)
    (st : DDState) (preF postF : Frame) (mprev : Bool)
    (hcands : candidatesOf cv p
      (cv.findContours (threshFinal cv p W H st preF postF mprev)) = []) :
    (detect cv mb p W H st (some preF) (some postF) mprev).2 =
      { st with board_mask := some (bmOf W H st) } := by
  simp only [detect]
  rw [hcands]

/-! ## Claim theorems -/

/-- C7: for every camera and every non-null frame, after
BackgroundModel.update_pre_impact the stored pre-impact frame for that camera
is (a copy of) the given frame and the post-impact candidate list of that camera is
empty, so candidates never survive a replacement of the reference frame. -/
theorem update_pre_impact_resets_candidates (st : BMState) (cam : CamId) (f : Frame) :
    (update_pre_impact st cam (some f)).pre_impact_frames cam = some f ∧
    (update_pre_impact st cam (some f)).post_impact_candidates cam = some [] := by
  constructor <;> simp [update_pre_impact, updateF]

/-- C9: if either input frame is null, DartDetector.detect returns not-found
(no tip, confidence 0.0, no debug artifacts) and the detector state - board
mask and previous-darts mask alike - is returned unchanged, for either value
of mask_previous. -/
theorem detect_null_frames_not_found (cv : CvPrims) (mb : MultiBlobFn) (p : DParams)
    (W H : Nat) (st : DDState) :
    (∀ post mprev, detect cv mb p W H st none post mprev =
      ({ tip := none, conf := 0, debug := none }, st)) ∧
    (∀ pre mprev, detect cv mb p W H st pre none mprev =
      ({ tip := none, conf := 0, debug := none }, st)) := by
  constructor
  · intro post mprev
    cases post <;> rfl
  · intro pre mprev
    cases pre <;> rfl

/-- C10: for a camera with no stored background, update_background installs
the processed frame outright for every learning rate, exactly as a full
replace with rate 1.0 would; blending only ever happens against an existing
background. -/
theorem update_background_first_install (cv : CvPrims) (mp : MParams) (st : MDState)
    (cam : CamId) (f : Frame) (lr : ℚ) (h : st.background_frames cam = none) :
    (update_background cv mp st cam (some f) lr).background_frames cam =
      some (procM cv mp f) ∧
    (update_background cv mp st cam (some f) lr).background_frames cam =
      (update_background cv mp st cam (some f) 1).background_frames cam := by
  constructor <;> simp [update_background, updateF, h]

/-- Witness for C10 at a concrete camera, frame and learning rate 1/2. -/
theorem update_background_first_install_witness :
    (update_background cvId mpW ⟨fun _ => none, fun _ => none⟩ 0 (some constFrame)
      (1/2)).background_frames 0 = some (procM cvId mpW constFrame) :=
  (update_background_first_install cvId mpW ⟨fun _ => none, fun _ => none⟩ 0 constFrame
    (1/2) rfl).1

/-- C1: in DartDetector.detect every surviving candidate is scored as
area * aspect_ratio * (1 - circularity), the winner is a candidate of maximal
score, and - unless the multi-blob fallback replaces the result (hypothesis
hmb: the fallback never reports a strictly higher confidence) - the reported
tip is the endpoint of the projection of the winning contour onto the fitted
line whose y coordinate is not smaller than that of the other endpoint, with
confidence the fixed 0.8. -/
theorem detect_primary_scoring_and_tip (cv : CvPrims) (mb : MultiBlobFn) (p : DParams)
    (W H : Nat) (st : DDState) (preF postF : Frame) (mprev : Bool) (c0 : Candidate)
    (rest : List Candidate)
    (hcands : candidatesOf cv p
      (cv.findContours (threshFinal cv p W H st preF postF mprev)) = c0 :: rest)
    (hmb : ∀ mtc, mb (c0 :: rest) (threshFinal cv p W H st preF postF mprev) = some mtc →
      mtc.2 ≤ (findTip cv (pyMaxBy score c0 rest).contour).2) :
    pyMaxBy score c0 rest ∈ c0 :: rest ∧
    (∀ c ∈ c0 :: rest, score c ≤ score (pyMaxBy score c0 rest)) ∧
    (∀ c ∈ c0 :: rest, score c = c.area * c.aspect_ratio * (1 - c.circularity)) ∧
    (detect cv mb p W H st (some preF) (some postF) mprev).1.tip =
      some (findTip cv (pyMaxBy score c0 rest).contour).1 ∧
    (detect cv mb p W H st (some preF) (some postF) mprev).1.conf = 4/5 ∧
    ((findTip cv (pyMaxBy score c0 rest).contour).1 =
        (tipEnds cv (pyMaxBy score c0 rest).contour).1 ∨
      (findTip cv (pyMaxBy score c0 rest).contour).1 =
        (tipEnds cv (pyMaxBy score c0 rest).contour).2) ∧
    (tipEnds cv (pyMaxBy score c0 rest).contour).1.2 ≤
      (findTip cv (pyMaxBy score c0 rest).contour).1.2 ∧
    (tipEnds cv (pyMaxBy score c0 rest).contour).2.2 ≤
      (findTip cv (pyMaxBy score c0 rest).contour).1.2 := by
  obtain ⟨hmem, hb, hall⟩ := pyMaxBy_spec score rest c0
  obtain ⟨htip, hconf, -⟩ :=
    detect_success_eq cv mb p W H st preF postF mprev c0 rest hcands hmb
  have hft : findTip cv (pyMaxBy score c0 rest).contour =
      (if (tipEnds cv (pyMaxBy score c0 rest).contour).2.2 <
            (tipEnds cv (pyMaxBy score c0 rest).contour).1.2
        then (tipEnds cv (pyMaxBy score c0 rest).contour).1
        else (tipEnds cv (pyMaxBy score c0 rest).contour).2, 4/5) := rfl
  refine ⟨?_, ?_, fun c _ => rfl, htip, ?_, ?_, ?_, ?_⟩
  · rcases hmem with h | h
    · rw [h]; exact List.mem_cons_self c0 rest
    · exact List.mem_cons_of_mem c0 h
  · intro c hc
    rcases List.mem_cons.mp hc with h | h
    · rw [h]; exact hb
    · exact hall c h
  · rw [hconf, hft]
  · rw [hft]
    dsimp only
    split_ifs with h
    · exact Or.inl rfl
    · exact Or.inr rfl
  · rw [hft]
    dsimp only
    split_ifs with h
    · exact le_refl _
    · exact not_lt.mp h
  · rw [hft]
    dsimp only
    split_ifs with h
    · exact le_of_lt h
    · exact le_refl _

/-- Witness for C1: under the concrete primitives that surface the rectangle
contour, detect reports the primary-rule tip with confidence 0.8. -/
theorem detect_primary_scoring_and_tip_witness :
    (detect cvCex mbNone dpW 200 200 ddFresh (some constFrame) (some constFrame)
        true).1.tip = some (findTip cvCex (pyMaxBy score cexCand []).contour).1 ∧
    (detect cvCex mbNone dpW 200 200 ddFresh (some constFrame) (some constFrame)
        true).1.conf = 4/5 := by
  have h := detect_primary_scoring_and_tip cvCex mbNone dpW 200 200 ddFresh constFrame
    constFrame true cexCand [] (candidatesOf_cvCex _)
    (by intro mtc hm; simp [mbNone] at hm)
  exact ⟨h.2.2.2.1, h.2.2.2.2.1⟩

/-- C2: a contour survives the filter of DartDetector.detect if and only if
its area lies within [min_dart_area, max_dart_area], its bounding-box aspect
ratio (longer side over shorter side) is at least aspect_ratio_min, its longer
bounding-box side is at least min_shaft_length, its circularity
4 pi area / perimeter^2 is at most 0.7, and its solidity (area over convex
hull area) is at least 0.5; failing any one test discards it.  Stated for
nonempty contours with nonzero perimeter and hull area (as cv2 produces; the
source separately discards the degenerate zero cases). -/
theorem contour_filter_iff (cv : CvPrims) (p : DParams) (c : Contour)
    (hc : c ≠ []) (hper : 0 < cv.arcLength c)
    (hhull : 0 < contourArea (cv.convexHull c)) :
    (mkCandidate cv p c).isSome = true ↔
((p.min_dart_area ≤ contourArea c ∧ contourArea c ≤ p.max_dart_area) ∧
       p.aspect_ratio_min ≤
         ((max (boundingRect c).h (boundingRect c).w : Nat) : ℚ) /
           ((min (boundingRect c).h (boundingRect c).w : Nat) : ℚ) ∧
       p.min_shaft_length ≤ ((max (boundingRect c).h (boundingRect c).w : Nat) : ℚ) ∧
       4 * npPi * contourArea c / (cv.arcLength c * cv.arcLength c) ≤ 7/10 ∧
       1/2 ≤ contourArea c / contourArea (cv.convexHull c)) := by
  have hdim := boundingRect_dims_pos c hc
  have hminmax : max (min (boundingRect c).h (boundingRect c).w) 1 =
      min (boundingRect c).h (boundingRect c).w :=
    max_eq_left (le_min hdim.2 hdim.1)
  simp only [mkCandidate, hminmax]
  split_ifs with h1 h2 h3 h4 h5 h6 h7
  · simp only [Option.isSome_none, Bool.false_eq_true, false_iff]
    rintro ⟨⟨ha1, ha2⟩, -⟩
    rcases h1 with h | h <;> linarith
  · simp only [Option.isSome_none, Bool.false_eq_true, false_iff]
    rintro ⟨-, hasp, -⟩
    linarith
  · simp only [Option.isSome_none, Bool.false_eq_true, false_iff]
    rintro ⟨-, -, hlen, -⟩
    linarith
  · exact absurd h4 (ne_of_gt hper)
  · simp only [Option.isSome_none, Bool.false_eq_true, false_iff]
    rintro ⟨-, -, -, hcirc, -⟩
    linarith
  · exact absurd h6 (ne_of_gt hhull)
  · simp only [Option.isSome_none, Bool.false_eq_true, false_iff]
    rintro ⟨-, -, -, -, hsol⟩
    linarith
  · simp only [Option.isSome_some, true_iff]
    push_neg at h1
    exact ⟨⟨h1.1, h1.2⟩, not_lt.mp h2, not_lt.mp h3, not_lt.mp h5, not_lt.mp h7⟩

/-- Witness for C2: the 5 x 50 rectangle contour passes the filter at the
constructor-default parameters. -/
theorem contour_filter_iff_witness :
    (mkCandidate cvId dpW cexContour).isSome = true := by
  refine (contour_filter_iff cvId dpW cexContour (by simp [cexContour])
    (by norm_num [cvId]) ?_).mpr ?_
  · norm_num [cvId, contourArea, cexContour, shoelace, shoelaceAux]
  · refine ⟨⟨?_, ?_⟩, ?_, ?_, ?_, ?_⟩ <;>
      norm_num [dpW, cvId, contourArea, cexContour, shoelace, shoelaceAux,
        boundingRect, npPi, show (49 : Int).toNat = 49 from rfl,
        show (4 : Int).toNat = 4 from rfl]

/-- C6: the previous-darts mask only grows.  (1) A successful detect with
mask_previous set unions the winning contour, filled and dilated with the
25 x 25 elliptical element, into the mask, initializing it if absent; (2) no
detect call - either mask_previous value, any inputs - removes a set pixel
from the mask; (3) reset_previous_darts clears it entirely; (4) pixels the
mask covers are zeroed out of the threshold image on subsequent masked detect
calls. -/
theorem previous_darts_mask_lifecycle (cv : CvPrims) (mb : MultiBlobFn) (p : DParams)
    (W H : Nat) :
    (∀ st preF postF c0 rest,
      candidatesOf cv p
        (cv.findContours (threshFinal cv p W H st preF postF true)) = c0 :: rest →
      (detect cv mb p W H st (some preF) (some postF) true).2.previous_darts_mask =
        some (match st.previous_darts_mask with
          | none => dartMaskOf cv (pyMaxBy score c0 rest).contour
          | some m => lorImg m (dartMaskOf cv (pyMaxBy score c0 rest).contour))) ∧
    (∀ st pre post mprev m x y, st.previous_darts_mask = some m → m x y ≠ 0 →
      ∃ m2, (detect cv mb p W H st pre post mprev).2.previous_darts_mask = some m2 ∧
        m2 x y ≠ 0) ∧
    (∀ st, (reset_previous_darts st).previous_darts_mask = none) ∧
    (∀ st preF postF pm x y, st.previous_darts_mask = some pm → pm x y = 255 →
      threshFinal cv p W H st preF postF true x y = 0) := by
  refine ⟨?_, ?_, fun st => rfl, ?_⟩
  · intro st preF postF c0 rest hcands
    rw [detect_state_success cv mb p W H st preF postF true c0 rest hcands]
    cases hprev : st.previous_darts_mask <;>
      simp [addPrevMask, hprev]
  · intro st pre post mprev m x y hprev hx
    cases pre with
    | none =>
      refine ⟨m, ?_, hx⟩
      cases post <;> simpa [detect] using hprev
    | some preF =>
      cases post with
      | none => exact ⟨m, by simpa [detect] using hprev, hx⟩
      | some postF =>
        cases hcs : candidatesOf cv p
            (cv.findContours (threshFinal cv p W H st preF postF mprev)) with
        | nil =>
          refine ⟨m, ?_, hx⟩
          rw [detect_state_nocand cv mb p W H st preF postF mprev hcs]
          exact hprev
        | cons c0 rest =>
          rw [detect_state_success cv mb p W H st preF postF mprev c0 rest hcs]
          cases mprev with
          | false => exact ⟨m, by simpa using hprev, hx⟩
          | true =>
            refine ⟨lorImg m (dartMaskOf cv (pyMaxBy score c0 rest).contour), ?_, ?_⟩
            · simp [addPrevMask, hprev]
            · exact lor_ne_zero_left _ _ hx
  · intro st preF postF pm x y hprev hpm
    simp only [threshFinal, hprev]
    simp [maskImg, notImg, hpm]

/-- Witness for C6: a first successful masked detect initializes the mask
with the dilated winning silhouette, and reset clears a fresh state. -/
theorem previous_darts_mask_lifecycle_witness :
    (detect cvCex mbNone dpW 200 200 ddFresh (some constFrame) (some constFrame)
        true).2.previous_darts_mask =
      some (dartMaskOf cvCex (pyMaxBy score cexCand []).contour) ∧
    (reset_previous_darts ddFresh).previous_darts_mask = none := by
  have h := previous_darts_mask_lifecycle cvCex mbNone dpW 200 200
  constructor
  · have h1 := h.1 ddFresh constFrame constFrame cexCand [] (candidatesOf_cvCex _)
    simpa [ddFresh] using h1
  · exact h.2.2.1 ddFresh

/-- C3: starting from a fresh detector (all change-start timestamps null) and
feeding any sequence of calls to detect_persistent_change, (1) the final call
reports persistent = true only if some camera has a contiguous run of true
instantaneous-change samples - no intervening false sample - from some call at
least persistence_seconds before the final call through the final call itself;
and (2) whenever the instantaneous change of a camera is false at a call, the
change-start timestamp of that camera is null afterwards.  Nodup hypotheses
state that the frames dict of each call has distinct camera keys. -/
theorem persistent_change_requires_contiguous_run (cv : CvPrims) (mp : MParams)
    (W H : Nat) (p : ℚ) (st0 : MDState) (hist : List Call) (last : Call)
    (h0 : ∀ cam, st0.persistent_change_start cam = none)
    (hnd : ∀ c ∈ hist, (c.frames.map Prod.fst).Nodup)
    (hndl : (last.frames.map Prod.fst).Nodup) :
    ((detect_persistent_change cv mp W H (runCalls cv mp W H p st0 hist) last.frames
        last.time p).1 = true →
      ∃ cam, sampleOf cv mp W H st0.background_frames last cam = some true ∧
        ∃ i, ∃ hi : i < (hist ++ [last]).length,
          p ≤ last.time - ((hist ++ [last]).get ⟨i, hi⟩).time ∧
          sampleOf cv mp W H st0.background_frames ((hist ++ [last]).get ⟨i, hi⟩) cam =
            some true ∧
          ∀ j, ∀ hj : j < (hist ++ [last]).length, i ≤ j →
            ∀ b, sampleOf cv mp W H st0.background_frames ((hist ++ [last]).get ⟨j, hj⟩)
              cam = some b → b = true) ∧
    (∀ st cam fr, (cam, fr) ∈ last.frames →
      (detect_motion cv mp W H st.background_frames cam fr).1 = false →
      (detect_persistent_change cv mp W H st last.frames last.time
        p).2.2.2.persistent_change_start cam = none) := by
  constructor
  · intro hp
    have hfold : (last.frames.foldl
        (stepCam cv mp W H (runCalls cv mp W H p st0 hist).background_frames last.time p)
        ((runCalls cv mp W H p st0 hist).persistent_change_start, false)).2 = true := hp
    rw [runCalls_bg] at hfold
    rcases foldStep_flag_true cv mp W H st0.background_frames last.time p last.frames
        (runCalls cv mp W H p st0 hist).persistent_change_start false hndl hfold with
      hpd | ⟨cf, hcf, hmot, t0, ht0, hwin⟩
    · cases hpd
    · have hg := runCalls_goodrun_aux cv mp W H p st0.background_frames hist [] st0 hnd
        rfl (by intro cam t h2; rw [h0 cam] at h2; cases h2) cf.1 t0 ht0
      obtain ⟨i, hi, htime, hsampi, hrun⟩ := hg
      have hil : i < hist.length := by simpa using hi
      have hsampl : sampleOf cv mp W H st0.background_frames last cf.1 = some true := by
        rw [sampleOf]
        rw [lookup_eq_some_of_mem last.frames cf.1 cf.2 hndl (by simpa using hcf)]
        simp [hmot]
      refine ⟨cf.1, hsampl, i, by simp; omega, ?_, ?_, ?_⟩
      · simp only [List.get_eq_getElem]
        rw [List.getElem_append_left hil]
        have ht : hist[i].time = t0 := htime
        rw [ht]
        exact hwin
      · simp only [List.get_eq_getElem]
        rw [List.getElem_append_left hil]
        exact hsampi
      · intro j hj hij b hs
        by_cases hjp : j < hist.length
        · simp only [List.get_eq_getElem] at hs
          rw [List.getElem_append_left hjp] at hs
          exact hrun j hjp hij b hs
        · have hje : j = hist.length := by
            simp only [List.length_append, List.length_singleton] at hj
            omega
          subst hje
          simp only [List.get_eq_getElem] at hs
          rw [List.getElem_concat_length] at hs
          · rw [hsampl] at hs
            injection hs with hs
            exact hs.symm
          · rfl
  · intro st cam fr hmem hmot
    show (last.frames.foldl (stepCam cv mp W H st.background_frames last.time p)
      (st.persistent_change_start, false)).1 cam = none
    rw [foldStep_start cv mp W H st.background_frames last.time p last.frames
      st.persistent_change_start false cam hndl]
    rw [lookup_eq_some_of_mem last.frames cam fr hndl hmem]
    dsimp only
    rw [if_neg (by simp [hmot])]

/-- Witness for C3: two calls sampling camera 0 with change detected at times
0 and 1 and a 1/2-second window make the second call persistent, so the
theorem yields the contiguous run. -/
theorem persistent_change_requires_contiguous_run_witness :
    ∃ cam, sampleOf cvId mpNeg 0 0 mdW.background_frames callB cam = some true ∧
      ∃ i, ∃ hi : i < ([callA] ++ [callB]).length,
        (1 : ℚ)/2 ≤ callB.time - (([callA] ++ [callB]).get ⟨i, hi⟩).time ∧
        sampleOf cvId mpNeg 0 0 mdW.background_frames (([callA] ++ [callB]).get ⟨i, hi⟩)
          cam = some true ∧
        ∀ j, ∀ hj : j < ([callA] ++ [callB]).length, i ≤ j →
          ∀ b, sampleOf cvId mpNeg 0 0 mdW.background_frames
            (([callA] ++ [callB]).get ⟨j, hj⟩) cam = some b → b = true := by
  have h := persistent_change_requires_contiguous_run cvId mpNeg 0 0 (1/2) mdW [callA]
    callB (fun cam => rfl)
    (by
      intro c hc
      simp only [List.mem_singleton] at hc
      subst hc
      simp [callA])
    (by simp [callB])
  refine h.1 ?_
  norm_num [detect_persistent_change, runCalls, stepCam, detect_motion, procM,
    countPos, updateF, mdW, mpNeg, cvId, callA, callB, absdiffImg, absdiffPix,
    threshBin, cvtGray, constFrame, zeroImg, List.foldl]

/-- C4: get_best_post_impact returns null with zero candidates, the single
candidate with exactly one, and with two or more candidates (and a stored
pre-impact frame) the candidate whose noise score - grayscale absolute
difference against the pre frame summed outside the central disk of radius a
third of the smaller dimension - is minimal, the earliest-added candidate
winning ties (every earlier candidate has a strictly larger score). -/
theorem get_best_post_impact_spec (W H : Nat) (st : BMState) (cam : CamId) :
    ((st.post_impact_candidates cam = none ∨ st.post_impact_candidates cam = some []) →
      get_best_post_impact W H st cam = none) ∧
    (∀ c, st.post_impact_candidates cam = some [c] →
      get_best_post_impact W H st cam = some c) ∧
    (∀ c0 c1 rest p, st.post_impact_candidates cam = some (c0 :: c1 :: rest) →
      st.pre_impact_frames cam = some p →
      ∃ b, get_best_post_impact W H st cam = some b ∧
        ∃ i, ∃ hi : i < (c0 :: c1 :: rest).length,
          b = (c0 :: c1 :: rest).get ⟨i, hi⟩ ∧
          (∀ a ∈ c0 :: c1 :: rest, noiseScore W H p b ≤ noiseScore W H p a) ∧
          ∀ j, ∀ hj : j < i,
            noiseScore W H p b < noiseScore W H p ((c0 :: c1 :: rest).get ⟨j, by omega⟩)) := by
  refine ⟨?_, ?_, ?_⟩
  · rintro (h | h) <;> simp [get_best_post_impact, h]
  · intro c h
    simp [get_best_post_impact, h]
  · intro c0 c1 rest p hpost hpre
    simp only [get_best_post_impact, hpost, hpre, List.isEmpty_cons, if_false]
    refine ⟨bestLoop (noiseScore W H p) (c1 :: rest) c0, rfl, ?_⟩
    rcases bestLoop_spec (noiseScore W H p) (c1 :: rest) c0 with
      ⟨heq, hle⟩ | ⟨i, hi, heq, hlt, hle, hearly⟩
    · refine ⟨0, by simp, by simpa using heq, ?_, ?_⟩
      · intro a ha
        rw [heq]
        rcases List.mem_cons.mp ha with h | h
        · exact le_of_eq (congrArg (noiseScore W H p) h.symm)
        · exact hle a h
      · intro j hj
        omega
    · refine ⟨i + 1, by simpa using Nat.succ_lt_succ hi, by simpa using heq, ?_, ?_⟩
      · intro a ha
        rcases List.mem_cons.mp ha with h | h
        · subst h
          exact le_of_lt hlt
        · exact hle a h
      · intro j hj
        cases j with
        | zero => simpa using hlt
        | succ j0 =>
          have := hearly j0 (by omega)
          simpa using this

/-- Witness for C4: with two candidates stored for camera 0, the selected
frame is one of them with minimal noise score. -/
theorem get_best_post_impact_spec_witness :
    ∃ b, get_best_post_impact 2 1 bmW 0 = some b ∧
      ∃ i, ∃ hi : i < ([frameA, constFrame] : List Frame).length,
        b = ([frameA, constFrame] : List Frame).get ⟨i, hi⟩ ∧
        (∀ a ∈ ([frameA, constFrame] : List Frame),
          noiseScore 2 1 constFrame b ≤ noiseScore 2 1 constFrame a) ∧
        ∀ j, ∀ hj : j < i,
          noiseScore 2 1 constFrame b <
            noiseScore 2 1 constFrame (([frameA, constFrame] : List Frame).get ⟨j, by omega⟩) :=
  (get_best_post_impact_spec 2 1 bmW 0).2.2 frameA constFrame [] constFrame rfl rfl

/-- C8: a full-replace update_background immediately followed by detect_motion
on the same frame yields change percentage exactly 0 - the identical
downscale, grayscale and blur pipeline is applied to both sides, so the
absolute difference vanishes - and hence motion_detected is false (given the
nonnegative thresholds the detector is configured with). -/
theorem update_then_detect_motion_zero (cv : CvPrims) (mp : MParams) (W H : Nat)
    (st : MDState) (cam : CamId) (f : Frame)
    (hmt : 0 ≤ mp.motion_threshold) (hst : 0 ≤ mp.settled_threshold) :
    (detect_motion cv mp W H
        (update_background cv mp st cam (some f) 1).background_frames cam (some f)).1
      = false ∧
    (detect_motion cv mp W H
        (update_background cv mp st cam (some f) 1).background_frames cam (some f)).2.1
      = 0 := by
  have hbg : (update_background cv mp st cam (some f) 1).background_frames cam =
      some (procM cv mp f) := by
    cases hb : st.background_frames cam <;> simp [update_background, updateF, hb]
  simp only [detect_motion]
  rw [hbg]
  simp only [absdiffImg_self, threshBin_zeroImg hmt, countPos_zero]
  norm_num
  exact hst

/-- Witness for C8 at the constructor-default thresholds. -/
theorem update_then_detect_motion_zero_witness :
    (detect_motion cvId mpW 8 8
        (update_background cvId mpW ⟨fun _ => none, fun _ => none⟩ 0 (some constFrame)
          1).background_frames 0 (some constFrame)).1 = false :=
  (update_then_detect_motion_zero cvId mpW 8 8 ⟨fun _ => none, fun _ => none⟩ 0 constFrame
    (by norm_num [mpW]) (by norm_num [mpW])).1

end Arudart
